import Mathlib

/-!
Verification of the SchoolTrack backend core: the offline-sync ingestion engine
(app/services/sync_service.py) and the token-assignment state machine
(app/services/assignment_service.py), shallowly embedded over list-based state.

Modelling conventions:
* UUID-valued columns are modelled as `String` (a Python `uuid.UUID` is determined
  by its string form, and `str(u)` is then the identity), integer primary keys as `Nat`,
  timestamps as `Nat` (each service call receives one `now` value standing for the
  `datetime.now()` calls it performs).
* A SQLAlchemy table is a `List` of records; `.scalar()` on a filtered select is
  `List.find?`; `db.add` appends; `db.commit` makes the staged list the new state.
* Server-generated columns never read by the embedded services
  (`Attendance.id`, `created_at`, `Token.id`, `Token.created_at`,
  `TripStudent.added_at`, `Assignment.created_at`) are omitted.
* Sessions are created with `autoflush=False` (app/database.py), so selects issued
  while mutations are pending read the pre-mutation store; `reassign_token`'s second
  select is therefore evaluated against the original assignment list, and the
  identity-map comparison `old_student is not old_token` is primary-key inequality.
-/

namespace SchoolTrack

/-- UUID values (Python `uuid.UUID`), identified with their string representation. -/
abbrev Uuid := String

/-! ## Sync ingestion engine: data model (app/models/attendance.py, app/schemas/sync.py) -/

/-- `ScanItem` (app/schemas/sync.py): one offline scan uploaded by the mobile client. -/
structure ScanItem where
  client_uuid : Uuid
  student_id : Uuid
  checkpoint_id : Uuid
  trip_id : Uuid
  scanned_at : Nat
  scan_method : String
  scan_sequence : Int
  is_manual : Bool
  justification : Option String
  comment : Option String
deriving DecidableEq

/-- `Attendance` row (app/models/attendance.py). `client_uuid` is nullable in the
table (legacy manual entries); the sync engine always sets it. -/
structure Attendance where
  client_uuid : Option Uuid
  trip_id : Uuid
  checkpoint_id : Uuid
  student_id : Uuid
  assignment_id : Option Nat
  scanned_at : Nat
  scanned_by : Option Uuid
  scan_method : String
  scan_sequence : Int
  is_manual : Bool
  justification : Option String
  comment : Option String
deriving DecidableEq

/-- `SyncResponse` (app/schemas/sync.py). -/
structure SyncResponse where
  accepted : List String
  duplicate : List String
  total_received : Nat
  total_inserted : Nat
deriving DecidableEq

/-- The inter-batch duplicate check of sync_service.py line 58:
`select(Attendance).where(Attendance.client_uuid == scan.client_uuid)` is non-empty. -/
def dbHasClientUuid (db : List Attendance) (u : Uuid) : Bool :=
  db.any (fun a => a.client_uuid == some u)

/-- The `Attendance(...)` constructor call of sync_service.py lines 68-79: every
client-supplied field is copied verbatim; columns not passed keep their defaults
(`assignment_id` and `scanned_by` stay NULL). -/
def scanToAttendance (s : ScanItem) : Attendance :=
  { client_uuid := some s.client_uuid
    trip_id := s.trip_id
    checkpoint_id := s.checkpoint_id
    student_id := s.student_id
    assignment_id := none
    scanned_at := s.scanned_at
    scanned_by := none
    scan_method := s.scan_method
    scan_sequence := s.scan_sequence
    is_manual := s.is_manual
    justification := s.justification
    comment := s.comment }

/-- The per-scan loop of `sync_attendances` (sync_service.py lines 48-82).
Returns (accepted scans, duplicate scans, staged rows); `seen` is `seen_in_batch`.
Because the session has autoflush=False, the inter-batch lookup always reads the
committed store `db`, never the staged rows. -/
def syncProcess (db : List Attendance) : List Uuid → List ScanItem →
    List ScanItem × List ScanItem × List Attendance
  | _, [] => ([], [], [])
  | seen, s :: rest =>
    if seen.contains s.client_uuid then
      let r := syncProcess db seen rest
      (r.1, s :: r.2.1, r.2.2)
    else if dbHasClientUuid db s.client_uuid then
      let r := syncProcess db seen rest
      (r.1, s :: r.2.1, r.2.2)
    else
      let r := syncProcess db (s.client_uuid :: seen) rest
      (s :: r.1, r.2.1, scanToAttendance s :: r.2.2)

/-- `sync_attendances` (sync_service.py lines 25-96): processes the batch in input
order, then commits the staged rows in one transaction and reports the accepted and
duplicate identifiers. Returns the response together with the post-commit store. -/
def sync_attendances (db : List Attendance) (scans : List ScanItem) :
    SyncResponse × List Attendance :=
  let r := syncProcess db [] scans
  ({ accepted := r.1.map (fun s => s.client_uuid)
     duplicate := r.2.1.map (fun s => s.client_uuid)
     total_received := scans.length
     total_inserted := r.1.length },
   db ++ r.2.2)

/-- Number of occurrences of idempotency identifier `u` in a scan list. -/
def uuidCountScans (l : List ScanItem) (u : Uuid) : Nat :=
  l.countP (fun s => s.client_uuid == u)

/-- Number of persisted attendance rows carrying idempotency identifier `u`. -/
def countClient (db : List Attendance) (u : Uuid) : Nat :=
  db.countP (fun a => a.client_uuid == some u)

/-- A sample offline scan used to instantiate hypotheses at concrete inputs. -/
def wScan : ScanItem :=
  { client_uuid := "u-1", student_id := "stu-1", checkpoint_id := "cp-1",
    trip_id := "trip-1", scanned_at := 0, scan_method := "NFC_PHYSICAL",
    scan_sequence := 1, is_manual := false, justification := none, comment := none }

/-! ## Token assignment state machine: data model
(app/models/assignment.py, app/models/trip.py, app/schemas/assignment.py) -/

/-- `TripStudent` row (app/models/trip.py): trip roster membership. -/
structure TripStudent where
  trip_id : Uuid
  student_id : Uuid
deriving DecidableEq

/-- `Token` row (app/models/assignment.py): physical token stock. -/
structure Token where
  token_uid : String
  token_type : String
  status : String
  last_assigned_at : Option Nat
deriving DecidableEq

/-- `Assignment` row (app/models/assignment.py). `id` is the autoincrement primary
key; `released_at = none` means the assignment is active. -/
structure Assignment where
  id : Nat
  token_uid : String
  student_id : Uuid
  trip_id : Uuid
  assignment_type : String
  assigned_at : Nat
  assigned_by : Option Uuid
  released_at : Option Nat
deriving DecidableEq

/-- `AssignmentCreate` (app/schemas/assignment.py), after boundary validation. -/
structure AssignmentCreate where
  token_uid : String
  student_id : Uuid
  trip_id : Uuid
  assignment_type : String
deriving DecidableEq

/-- `AssignmentReassign` (app/schemas/assignment.py), after boundary validation. -/
structure AssignmentReassign where
  token_uid : String
  student_id : Uuid
  trip_id : Uuid
  assignment_type : String
  justification : String
deriving DecidableEq

/-- The relational state the assignment engine reads and writes. `next_id` is the
autoincrement counter of the assignments table. -/
structure AssignState where
  trip_students : List TripStudent
  assignments : List Assignment
  tokens : List Token
  next_id : Nat
deriving DecidableEq

/-- The three typed business-rule violations raised by `assign_token`
(assignment_service.py lines 53, 66, 79: `ValueError` with distinct messages;
the token-conflict message names the token uid). -/
inductive AssignError where
  | notParticipant
  | tokenAlreadyAssigned (token_uid : String)
  | studentAlreadyAssigned
deriving DecidableEq

/-- The where-clause of the select at assignment_service.py lines 56-63:
active assignment of this token on this trip. -/
def matchesActiveToken (uid : String) (trip : Uuid) (a : Assignment) : Bool :=
  a.token_uid == uid && a.trip_id == trip && a.released_at.isNone

/-- The where-clause of the select at assignment_service.py lines 69-76:
active assignment of this student on this trip. -/
def matchesActiveStudent (sid : Uuid) (trip : Uuid) (a : Assignment) : Bool :=
  a.student_id == sid && a.trip_id == trip && a.released_at.isNone

/-- The participant lookup of assignment_service.py lines 44-50. -/
def isParticipant (ts : List TripStudent) (trip sid : Uuid) : Bool :=
  ts.any (fun p => p.trip_id == trip && p.student_id == sid)

/-- `_update_token_status` (assignment_service.py lines 300-308): if a registered
token carries this uid, set its status and stamp `last_assigned_at`; `.scalar()`
takes the first matching row. -/
def update_token_status (tokens : List Token) (uid status : String) (now : Nat) :
    List Token :=
  match tokens with
  | [] => []
  | t :: rest =>
    if t.token_uid == uid then { t with status := status, last_assigned_at := some now } :: rest
    else t :: update_token_status rest uid status now

/-- Setting `released_at = now` on the ORM object with primary key `aid`
(the attribute mutations at assignment_service.py lines 120 and 133). -/
def releaseAssignment (l : List Assignment) (aid : Nat) (now : Nat) : List Assignment :=
  l.map (fun a => if a.id == aid then { a with released_at := some now } else a)

/-- `assign_token` (assignment_service.py lines 30-97). The three pre-checks run in
order and raise on first violation, before any mutation; on success the new row is
inserted, the token stock updated, and the whole unit committed. -/
def assign_token (st : AssignState) (data : AssignmentCreate)
    (assigned_by : Option Uuid) (now : Nat) :
    Except AssignError (AssignState × Assignment) :=
  if ¬ isParticipant st.trip_students data.trip_id data.student_id then
    .error .notParticipant
  else if (st.assignments.find? (matchesActiveToken data.token_uid data.trip_id)).isSome then
    .error (.tokenAlreadyAssigned data.token_uid)
  else if (st.assignments.find? (matchesActiveStudent data.student_id data.trip_id)).isSome then
    .error .studentAlreadyAssigned
  else
    let assignment : Assignment :=
      { id := st.next_id, token_uid := data.token_uid, student_id := data.student_id,
        trip_id := data.trip_id, assignment_type := data.assignment_type,
        assigned_at := now, assigned_by := assigned_by, released_at := none }
    .ok ({ st with
            assignments := st.assignments ++ [assignment],
            tokens := update_token_status st.tokens data.token_uid "ASSIGNED" now,
            next_id := st.next_id + 1 },
         assignment)

/-- The persisted state after an `assign_token` call: a raised `ValueError` aborts
before `db.commit()`, so the store is unchanged on error. -/
def apply_assign (st : AssignState) (data : AssignmentCreate)
    (assigned_by : Option Uuid) (now : Nat) : AssignState :=
  match assign_token st data assigned_by now with
  | .ok (st', _) => st'
  | .error _ => st

/-- `reassign_token` (assignment_service.py lines 100-158). Both `.scalar()` selects
read the pre-mutation store (autoflush=False session; the release of the token row
is an unflushed attribute write), the identity check `old_student is not old_token`
is primary-key inequality, and the new row is inserted after `db.flush()` made the
releases visible. -/
def reassign_token (st : AssignState) (data : AssignmentReassign)
    (assigned_by : Option Uuid) (now : Nat) : AssignState × Assignment :=
  let old_token := st.assignments.find? (matchesActiveToken data.token_uid data.trip_id)
  let l1 := match old_token with
    | some a => releaseAssignment st.assignments a.id now
    | none => st.assignments
  let old_student := st.assignments.find? (matchesActiveStudent data.student_id data.trip_id)
  let l2 := match old_student, old_token with
    | some b, some a => if b.id == a.id then l1 else releaseAssignment l1 b.id now
    | some b, none => releaseAssignment l1 b.id now
    | none, _ => l1
  let assignment : Assignment :=
    { id := st.next_id, token_uid := data.token_uid, student_id := data.student_id,
      trip_id := data.trip_id, assignment_type := data.assignment_type,
      assigned_at := now, assigned_by := assigned_by, released_at := none }
  ({ st with
      assignments := l2 ++ [assignment],
      tokens := update_token_status st.tokens data.token_uid "ASSIGNED" now,
      next_id := st.next_id + 1 },
   assignment)

/-- The transactional boundary of `reassign_token`: `db.commit()` either persists
every staged mutation or none (a failed commit rolls the store back unchanged). -/
def reassign_token_txn (st : AssignState) (data : AssignmentReassign)
    (assigned_by : Option Uuid) (now : Nat) (commitOk : Bool) : AssignState :=
  if commitOk then (reassign_token st data assigned_by now).1 else st

/-- `release_trip_tokens` (assignment_service.py lines 270-297): release every
active assignment of the trip at `now`, returning how many were released; if none
is active, return 0 without touching the store. -/
def release_trip_tokens (st : AssignState) (trip : Uuid) (now : Nat) :
    AssignState × Nat :=
  let active := st.assignments.filter
    (fun a => a.trip_id == trip && a.released_at.isNone)
  if active.length == 0 then (st, 0)
  else
    ({ st with assignments :=
        st.assignments.map (fun a =>
          if a.trip_id == trip && a.released_at.isNone
          then { a with released_at := some now } else a) },
     active.length)

/-- The serial operations of the assignment engine. -/
inductive EngineOp where
  | assign (data : AssignmentCreate) (assigned_by : Option Uuid) (now : Nat)
  | reassign (data : AssignmentReassign) (assigned_by : Option Uuid) (now : Nat)
  | releaseAll (trip : Uuid) (now : Nat)

/-- Persisted effect of one serial engine operation. -/
def applyOp (st : AssignState) : EngineOp → AssignState
  | .assign data b now => apply_assign st data b now
  | .reassign data b now => (reassign_token st data b now).1
  | .releaseAll trip now => (release_trip_tokens st trip now).1

/-- A freshly initialised store: a trip roster and a token stock, no assignments,
autoincrement counter at 1. -/
def initState (ts : List TripStudent) (tokens : List Token) : AssignState :=
  { trip_students := ts, assignments := [], tokens := tokens, next_id := 1 }

/-- Sequential execution of engine operations. -/
def runOps (st : AssignState) (ops : List EngineOp) : AssignState :=
  ops.foldl applyOp st

/-- Number of active assignments with this token uid on this trip. -/
def activeTokenCount (l : List Assignment) (uid : String) (trip : Uuid) : Nat :=
  l.countP (matchesActiveToken uid trip)

/-- Number of active assignments of this student on this trip. -/
def activeStudentCount (l : List Assignment) (sid trip : Uuid) : Nat :=
  l.countP (matchesActiveStudent sid trip)

/-- Number of active assignments on this trip (the rows `release_trip_tokens`
selects). -/
def activeTripCount (l : List Assignment) (trip : Uuid) : Nat :=
  l.countP (fun a => a.trip_id == trip && a.released_at.isNone)

/-- The two exclusivity invariants: per trip, at most one active row per token uid
and at most one active row per student. -/
def ExclusivityInv (st : AssignState) : Prop :=
  (∀ uid trip, activeTokenCount st.assignments uid trip ≤ 1) ∧
  (∀ sid trip, activeStudentCount st.assignments sid trip ≤ 1)

/-- Bookkeeping invariant of the autoincrement primary key: ids are below the
counter and pairwise distinct. -/
def IdsOk (st : AssignState) : Prop :=
  (∀ a ∈ st.assignments, a.id < st.next_id) ∧ (st.assignments.map (fun a => a.id)).Nodup

/-- Conjunction of the exclusivity invariants and the primary-key bookkeeping. -/
def StateInv (st : AssignState) : Prop :=
  ExclusivityInv st ∧ IdsOk st

/-- What the storage collaborator reports when `db.commit()` runs: success, or a
uniqueness-constraint violation (the partial unique indexes on active (token, trip)
and (student, trip), acknowledged in the source comments at assignment_service.py
lines 135-138, fire when a concurrent writer won the race). -/
inductive CommitOutcome where
  | ok
  | uniqueViolation
deriving DecidableEq

/-- Client-visible outcome of POST /api/v1/tokens/assign. -/
inductive HttpResult where
  | created (a : Assignment)
  | conflict409 (e : AssignError)
  | internalError500
deriving DecidableEq

/-- The assign endpoint (routers/tokens.py lines 23-37 plus app/main.py lines 57-69):
`assignment_service.assign_token` runs inside `try/except ValueError`, and only a
`ValueError` is translated to HTTP 409; any exception raised by `db.commit()` —
including a storage uniqueness-constraint violation — is not caught by the service
or the router and reaches the generic handler, which answers HTTP 500. -/
def assign_token_endpoint (st : AssignState) (data : AssignmentCreate) (now : Nat)
    (commit : CommitOutcome) : HttpResult :=
  match assign_token st data none now with
  | .error e => .conflict409 e
  | .ok (_, a) =>
    match commit with
    | .ok => .created a
    | .uniqueViolation => .internalError500

/-- Postcondition of a successful `reassign_token` call: the returned row is the
staged insert; the store is the prior rows — every previously-active row for this
token or this student on this trip now released at `now`, all others untouched,
primary keys preserved — followed by that single new active row; exactly one active
assignment for the token and for the student remains on the trip; the roster is
untouched; and a failed commit leaves the persisted state unchanged. -/
def ReassignPost (st : AssignState) (data : AssignmentReassign)
    (b : Option Uuid) (now : Nat) : Prop :=
  (reassign_token st data b now).2 =
    { id := st.next_id, token_uid := data.token_uid, student_id := data.student_id,
      trip_id := data.trip_id, assignment_type := data.assignment_type,
      assigned_at := now, assigned_by := b, released_at := none } ∧
  (∃ l2 : List Assignment,
    (reassign_token st data b now).1.assignments
      = l2 ++ [(reassign_token st data b now).2] ∧
    List.Forall₂ (fun a a' =>
      if (matchesActiveToken data.token_uid data.trip_id a
          || matchesActiveStudent data.student_id data.trip_id a) = true
      then a' = { a with released_at := some now } else a' = a) st.assignments l2) ∧
  activeTokenCount (reassign_token st data b now).1.assignments
    data.token_uid data.trip_id = 1 ∧
  activeStudentCount (reassign_token st data b now).1.assignments
    data.student_id data.trip_id = 1 ∧
  (reassign_token st data b now).1.trip_students = st.trip_students ∧
  reassign_token_txn st data b now false = st

/-- Postcondition of a successful `assign_token` call: exactly one new active row is
appended, the registered token (if any) transitions to ASSIGNED with its
last-assignment time stamped, an unregistered token uid leaves the stock untouched,
and the created assignment is returned. -/
def AssignPost (st : AssignState) (data : AssignmentCreate)
    (b : Option Uuid) (now : Nat) : Prop :=
  ∃ st' a, assign_token st data b now = .ok (st', a) ∧
    a = { id := st.next_id, token_uid := data.token_uid, student_id := data.student_id,
          trip_id := data.trip_id, assignment_type := data.assignment_type,
          assigned_at := now, assigned_by := b, released_at := none } ∧
    st'.assignments = st.assignments ++ [a] ∧
    st'.trip_students = st.trip_students ∧
    st'.next_id = st.next_id + 1 ∧
    List.Forall₂ (fun t t' =>
      if t.token_uid == data.token_uid
      then t' = { t with status := "ASSIGNED", last_assigned_at := some now }
      else t' = t) st.tokens st'.tokens ∧
    ((∀ t ∈ st.tokens, t.token_uid ≠ data.token_uid) → st'.tokens = st.tokens)

/-- Sample state: one trip with one enrolled student, one AVAILABLE registered
token, no assignments. -/
def stW : AssignState :=
  { trip_students := [{ trip_id := "trip-1", student_id := "stu-1" }],
    assignments := [],
    tokens := [{ token_uid := "ST-001", token_type := "NFC_PHYSICAL",
                 status := "AVAILABLE", last_assigned_at := none }],
    next_id := 1 }

/-- Sample assign request matching `stW`. -/
def dataW : AssignmentCreate :=
  { token_uid := "ST-001", student_id := "stu-1", trip_id := "trip-1",
    assignment_type := "NFC_PHYSICAL" }

/-- Sample reassign request: moves token ST-002 to a student that is NOT on the
roster of `stW2` (membership is not re-validated by reassign). -/
def dataW2 : AssignmentReassign :=
  { token_uid := "ST-002", student_id := "stu-9", trip_id := "trip-1",
    assignment_type := "NFC_PHYSICAL", justification := "bracelet casse" }

/-- Sample state for reassign: one active assignment of ST-001 to stu-9 on trip-1,
empty roster (stu-9 is not enrolled), empty token stock. -/
def stW2 : AssignState :=
  { trip_students := [],
    assignments := [{ id := 1, token_uid := "ST-001", student_id := "stu-9",
                      trip_id := "trip-1", assignment_type := "NFC_PHYSICAL",
                      assigned_at := 0, assigned_by := none, released_at := none }],
    tokens := [],
    next_id := 2 }

/-! ## Sync ingestion engine: lemmas -/

theorem syncProcess_staged (db : List Attendance) :
    ∀ (scans : List ScanItem) (seen : List Uuid),
      (syncProcess db seen scans).2.2 = (syncProcess db seen scans).1.map scanToAttendance
  | [], _ => rfl
  | s :: rest, seen => by
    by_cases h1 : s.client_uuid ∈ seen
    · simp [syncProcess, h1, syncProcess_staged db rest seen]
    · by_cases h2 : dbHasClientUuid db s.client_uuid
      · simp [syncProcess, h1, h2, syncProcess_staged db rest seen]
      · simp [syncProcess, h1, h2, syncProcess_staged db rest (s.client_uuid :: seen)]

theorem syncProcess_length (db : List Attendance) :
    ∀ (scans : List ScanItem) (seen : List Uuid),
      (syncProcess db seen scans).1.length + (syncProcess db seen scans).2.1.length
        = scans.length
  | [], _ => rfl
  | s :: rest, seen => by
    by_cases h1 : s.client_uuid ∈ seen
    · have := syncProcess_length db rest seen
      simp [syncProcess, h1]; omega
    · by_cases h2 : dbHasClientUuid db s.client_uuid
      · have := syncProcess_length db rest seen
        simp [syncProcess, h1, h2]; omega
      · have := syncProcess_length db rest (s.client_uuid :: seen)
        simp [syncProcess, h1, h2]; omega

theorem syncProcess_acc_sublist (db : List Attendance) :
    ∀ (scans : List ScanItem) (seen : List Uuid),
      (syncProcess db seen scans).1.Sublist scans
  | [], _ => List.Sublist.refl _
  | s :: rest, seen => by
    by_cases h1 : s.client_uuid ∈ seen
    · simpa [syncProcess, h1] using (syncProcess_acc_sublist db rest seen).cons s
    · by_cases h2 : dbHasClientUuid db s.client_uuid
      · simpa [syncProcess, h1, h2] using (syncProcess_acc_sublist db rest seen).cons s
      · simpa [syncProcess, h1, h2] using
          (syncProcess_acc_sublist db rest (s.client_uuid :: seen)).cons₂ s

theorem syncProcess_dup_sublist (db : List Attendance) :
    ∀ (scans : List ScanItem) (seen : List Uuid),
      (syncProcess db seen scans).2.1.Sublist scans
  | [], _ => List.Sublist.refl _
  | s :: rest, seen => by
    by_cases h1 : s.client_uuid ∈ seen
    · simpa [syncProcess, h1] using (syncProcess_dup_sublist db rest seen).cons₂ s
    · by_cases h2 : dbHasClientUuid db s.client_uuid
      · simpa [syncProcess, h1, h2] using (syncProcess_dup_sublist db rest seen).cons₂ s
      · simpa [syncProcess, h1, h2] using
          (syncProcess_dup_sublist db rest (s.client_uuid :: seen)).cons s

theorem syncProcess_cons_seen (db : List Attendance) (seen : List Uuid) (s : ScanItem)
    (rest : List ScanItem) (h : s.client_uuid ∈ seen) :
    syncProcess db seen (s :: rest) =
      ((syncProcess db seen rest).1, s :: (syncProcess db seen rest).2.1,
        (syncProcess db seen rest).2.2) := by
  simp [syncProcess, h]

theorem syncProcess_cons_db (db : List Attendance) (seen : List Uuid) (s : ScanItem)
    (rest : List ScanItem) (h1 : s.client_uuid ∉ seen)
    (h2 : dbHasClientUuid db s.client_uuid = true) :
    syncProcess db seen (s :: rest) =
      ((syncProcess db seen rest).1, s :: (syncProcess db seen rest).2.1,
        (syncProcess db seen rest).2.2) := by
  simp [syncProcess, h1, h2]

theorem syncProcess_cons_acc (db : List Attendance) (seen : List Uuid) (s : ScanItem)
    (rest : List ScanItem) (h1 : s.client_uuid ∉ seen)
    (h2 : ¬ dbHasClientUuid db s.client_uuid = true) :
    syncProcess db seen (s :: rest) =
      (s :: (syncProcess db (s.client_uuid :: seen) rest).1,
        (syncProcess db (s.client_uuid :: seen) rest).2.1,
        scanToAttendance s :: (syncProcess db (s.client_uuid :: seen) rest).2.2) := by
  simp [syncProcess, h1, h2]

/-- Acceptance rule, per identifier: an identifier already persisted (or already in
`seen`) is never accepted; a fresh identifier occurring in the batch is accepted
exactly once. -/
theorem syncProcess_acc_count (db : List Attendance) (u : Uuid) :
    ∀ (scans : List ScanItem) (seen : List Uuid),
      uuidCountScans (syncProcess db seen scans).1 u =
        if u ∈ seen ∨ dbHasClientUuid db u then 0 else min 1 (uuidCountScans scans u)
  | [], seen => by
    by_cases h : u ∈ seen ∨ dbHasClientUuid db u <;> simp [syncProcess, uuidCountScans, h]
  | s :: rest, seen => by
    have hcnt : ∀ h : s.client_uuid ≠ u, uuidCountScans (s :: rest) u = uuidCountScans rest u := by
      intro h
      simp [uuidCountScans, List.countP_cons, beq_iff_eq, h]
    by_cases h1 : s.client_uuid ∈ seen
    · rw [syncProcess_cons_seen db seen s rest h1]
      have ih := syncProcess_acc_count db u rest seen
      by_cases hu : s.client_uuid = u
      · subst hu
        rw [ih, if_pos (Or.inl h1), if_pos (Or.inl h1)]
      · rw [ih, hcnt hu]
    · by_cases h2 : dbHasClientUuid db s.client_uuid = true
      · rw [syncProcess_cons_db db seen s rest h1 h2]
        have ih := syncProcess_acc_count db u rest seen
        by_cases hu : s.client_uuid = u
        · subst hu
          rw [ih, if_pos (Or.inr h2), if_pos (Or.inr h2)]
        · rw [ih, hcnt hu]
      · rw [syncProcess_cons_acc db seen s rest h1 h2]
        have ih := syncProcess_acc_count db u rest (s.client_uuid :: seen)
        by_cases hu : s.client_uuid = u
        · subst hu
          have hA : uuidCountScans (syncProcess db (s.client_uuid :: seen) rest).1
              s.client_uuid = 0 := by
            rw [ih, if_pos (Or.inl (List.mem_cons_self _ _))]
          have hnot : ¬ (s.client_uuid ∈ seen ∨ dbHasClientUuid db s.client_uuid = true) := by
            rintro (h | h)
            · exact h1 h
            · exact h2 h
          rw [if_neg hnot]
          simp only [uuidCountScans, List.countP_cons] at hA ⊢
          rw [hA]
          simp [Nat.min_def]
        · have hL : uuidCountScans (s :: (syncProcess db (s.client_uuid :: seen) rest).1) u
              = uuidCountScans (syncProcess db (s.client_uuid :: seen) rest).1 u := by
            simp [uuidCountScans, List.countP_cons, beq_iff_eq, hu]
          show uuidCountScans (s :: (syncProcess db (s.client_uuid :: seen) rest).1) u = _
          rw [hL, ih, hcnt hu]


          have hmem : (u ∈ s.client_uuid :: seen) ↔ u ∈ seen := by
            constructor
            · intro h
              rcases List.mem_cons.mp h with h | h
              · exact absurd h.symm hu
              · exact h
            · intro h
              exact List.mem_cons.mpr (Or.inr h)
          by_cases hc : u ∈ seen ∨ dbHasClientUuid db u = true
          · rw [if_pos hc,
              if_pos (by rcases hc with h | h; exact Or.inl (List.mem_cons.mpr (Or.inr h)); exact Or.inr h)]
          · rw [if_neg hc,
              if_neg (fun h => hc (by rcases h with h | h; exact Or.inl (hmem.mp h); exact Or.inr h))]

/-- Every scan of the batch is classified exactly once: per identifier, the accepted
and duplicate occurrence counts add up to the occurrence count in the input. -/
theorem syncProcess_count_sum (db : List Attendance) (u : Uuid) :
    ∀ (scans : List ScanItem) (seen : List Uuid),
      uuidCountScans (syncProcess db seen scans).1 u
        + uuidCountScans (syncProcess db seen scans).2.1 u
        = uuidCountScans scans u
  | [], _ => rfl
  | s :: rest, seen => by
    by_cases h1 : s.client_uuid ∈ seen
    · rw [syncProcess_cons_seen db seen s rest h1]
      have ih := syncProcess_count_sum db u rest seen
      simp only [uuidCountScans, List.countP_cons] at ih ⊢
      omega
    · by_cases h2 : dbHasClientUuid db s.client_uuid = true
      · rw [syncProcess_cons_db db seen s rest h1 h2]
        have ih := syncProcess_count_sum db u rest seen
        simp only [uuidCountScans, List.countP_cons] at ih ⊢
        omega
      · rw [syncProcess_cons_acc db seen s rest h1 h2]
        have ih := syncProcess_count_sum db u rest (s.client_uuid :: seen)
        simp only [uuidCountScans, List.countP_cons] at ih ⊢
        omega

theorem countClient_append (db l : List Attendance) (u : Uuid) :
    countClient (db ++ l) u = countClient db u + countClient l u :=
  List.countP_append _ _ _

theorem countClient_staged (A : List ScanItem) (u : Uuid) :
    countClient (A.map scanToAttendance) u = uuidCountScans A u := by
  simp only [countClient, uuidCountScans, List.countP_map]
  rfl

theorem dbHas_iff_countClient (db : List Attendance) (u : Uuid) :
    dbHasClientUuid db u = true ↔ 0 < countClient db u := by
  simp [dbHasClientUuid, countClient, List.any_eq_true, List.countP_pos_iff]

theorem mem_uuid_map (A : List ScanItem) (u : Uuid) :
    u ∈ A.map (fun s => s.client_uuid) ↔ 0 < uuidCountScans A u := by
  constructor
  · intro h
    rcases List.mem_map.mp h with ⟨s, hs, hu⟩
    exact List.countP_pos_iff.mpr ⟨s, hs, by simp [hu, beq_iff_eq]⟩
  · intro h
    rcases List.countP_pos_iff.mp h with ⟨s, hs, hp⟩
    exact List.mem_map.mpr ⟨s, hs, beq_iff_eq.mp hp⟩

theorem count_uuid_map (A : List ScanItem) (u : Uuid) :
    (A.map (fun s => s.client_uuid)).count u = uuidCountScans A u := by
  simp only [List.count, uuidCountScans, List.countP_map]
  rfl

theorem dbHas_false_of_countClient_zero (db : List Attendance) (u : Uuid)
    (h : countClient db u = 0) : dbHasClientUuid db u = false := by
  rcases hb : dbHasClientUuid db u with _ | _
  · rfl
  · exact absurd ((dbHas_iff_countClient db u).mp hb) (by omega)

theorem sync_accepted_eq (db : List Attendance) (scans : List ScanItem) :
    (sync_attendances db scans).1.accepted
      = (syncProcess db [] scans).1.map (fun s => s.client_uuid) := rfl

theorem sync_duplicate_eq (db : List Attendance) (scans : List ScanItem) :
    (sync_attendances db scans).1.duplicate
      = (syncProcess db [] scans).2.1.map (fun s => s.client_uuid) := rfl

theorem sync_db_eq (db : List Attendance) (scans : List ScanItem) :
    (sync_attendances db scans).2 = db ++ (syncProcess db [] scans).2.2 := rfl

/-! ## Sync ingestion engine: claims C5, C1, C10 -/

/-- C5: SyncBatch processes the batch in input order; each scan is classified as
duplicate (already accepted in this batch, or already persisted) or accepted with a
verbatim staged copy; accepted and duplicate identifier lists follow input order;
total_received is the batch length and total_inserted the number of accepted scans;
per identifier, a fresh identifier is accepted exactly once and a persisted one never;
in particular a batch holding the same identifier twice yields one accepted and one
duplicate. -/
theorem sync_batch_classification (db : List Attendance) (scans : List ScanItem) :
    (sync_attendances db scans).1.total_received = scans.length ∧
    (sync_attendances db scans).1.total_inserted
      = (sync_attendances db scans).1.accepted.length ∧
    (∃ A D : List ScanItem,
      A.Sublist scans ∧ D.Sublist scans ∧
      (sync_attendances db scans).1.accepted = A.map (fun s => s.client_uuid) ∧
      (sync_attendances db scans).1.duplicate = D.map (fun s => s.client_uuid) ∧
      (sync_attendances db scans).2 = db ++ A.map scanToAttendance ∧
      (∀ u : Uuid, uuidCountScans A u =
        if dbHasClientUuid db u = true then 0 else min 1 (uuidCountScans scans u)) ∧
      (∀ u : Uuid, uuidCountScans A u + uuidCountScans D u = uuidCountScans scans u)) ∧
    (∀ s t : ScanItem, s.client_uuid = t.client_uuid →
      dbHasClientUuid db s.client_uuid = false →
        (sync_attendances db [s, t]).1.accepted = [s.client_uuid] ∧
        (sync_attendances db [s, t]).1.duplicate = [t.client_uuid] ∧
        (sync_attendances db [s, t]).1.total_received = 2 ∧
        (sync_attendances db [s, t]).1.total_inserted = 1) := by
  refine ⟨rfl, by simp [sync_attendances], ⟨(syncProcess db [] scans).1,
    (syncProcess db [] scans).2.1, syncProcess_acc_sublist db scans [],
    syncProcess_dup_sublist db scans [], rfl, rfl, ?_, ?_, ?_⟩, ?_⟩
  · show db ++ (syncProcess db [] scans).2.2 = _
    rw [syncProcess_staged db scans []]
  · intro u
    have h := syncProcess_acc_count db u scans []
    simpa using h
  · intro u
    exact syncProcess_count_sum db u scans []
  · intro s t hEq hdb
    have h2 : ¬ dbHasClientUuid db s.client_uuid = true := by simp [hdb]
    have e1 := syncProcess_cons_acc db [] s [t] (by simp) h2
    have e2 := syncProcess_cons_seen db [s.client_uuid] t [] (by simp [hEq])
    have e0 : syncProcess db [s.client_uuid] ([] : List ScanItem) = ([], [], []) := rfl
    rw [e2, e0] at e1
    refine ⟨?_, ?_, rfl, ?_⟩
    · rw [sync_accepted_eq, e1]
      rfl
    · rw [sync_duplicate_eq, e1]
      rfl
    · show (syncProcess db [] [s, t]).1.length = 1
      rw [e1]
      rfl

/-- C1: a scan whose idempotency identifier U was accepted and persisted by an
earlier batch makes every later submission of U a duplicate: U lands in the
duplicate list (once per occurrence), never in the accepted list, no error arises,
and exactly one persisted record with identifier U exists after both calls. -/
theorem sync_idempotent_across_batches (db0 : List Attendance) (batch1 : List ScanItem)
    (U : Uuid) (h0 : countClient db0 U = 0) (h1 : 0 < uuidCountScans batch1 U) :
    U ∈ (sync_attendances db0 batch1).1.accepted ∧
    countClient (sync_attendances db0 batch1).2 U = 1 ∧
    ∀ batch2 : List ScanItem, 0 < uuidCountScans batch2 U →
      U ∈ (sync_attendances (sync_attendances db0 batch1).2 batch2).1.duplicate ∧
      U ∉ (sync_attendances (sync_attendances db0 batch1).2 batch2).1.accepted ∧
      (sync_attendances (sync_attendances db0 batch1).2 batch2).1.duplicate.count U
        = uuidCountScans batch2 U ∧
      countClient (sync_attendances (sync_attendances db0 batch1).2 batch2).2 U = 1 := by
  have hdbf : dbHasClientUuid db0 U = false := dbHas_false_of_countClient_zero db0 U h0
  have cntA1 : uuidCountScans (syncProcess db0 [] batch1).1 U = 1 := by
    have h := syncProcess_acc_count db0 U batch1 []
    rw [h]
    simp [hdbf]
    omega
  have hs1 : (sync_attendances db0 batch1).2
      = db0 ++ ((syncProcess db0 [] batch1).1.map scanToAttendance) := by
    rw [sync_db_eq, syncProcess_staged db0 batch1 []]
  have hcount1 : countClient (sync_attendances db0 batch1).2 U = 1 := by
    rw [hs1, countClient_append, countClient_staged, h0, cntA1]
  refine ⟨by rw [sync_accepted_eq, mem_uuid_map, cntA1]; omega, hcount1, ?_⟩
  intro batch2 h2
  have hdb1 : dbHasClientUuid (sync_attendances db0 batch1).2 U = true :=
    (dbHas_iff_countClient _ U).mpr (by rw [hcount1]; omega)
  have cntA2 : uuidCountScans (syncProcess (sync_attendances db0 batch1).2 [] batch2).1 U
      = 0 := by
    have h := syncProcess_acc_count (sync_attendances db0 batch1).2 U batch2 []
    rw [h]
    simp [hdb1]
  have cntD2 : uuidCountScans (syncProcess (sync_attendances db0 batch1).2 [] batch2).2.1 U
      = uuidCountScans batch2 U := by
    have h := syncProcess_count_sum (sync_attendances db0 batch1).2 U batch2 []
    omega
  refine ⟨by rw [sync_duplicate_eq, mem_uuid_map, cntD2]; omega,
    fun hmem => by rw [sync_accepted_eq, mem_uuid_map, cntA2] at hmem; omega,
    by rw [sync_duplicate_eq, count_uuid_map, cntD2], ?_⟩
  have hs2 : (sync_attendances (sync_attendances db0 batch1).2 batch2).2
      = (sync_attendances db0 batch1).2
        ++ ((syncProcess (sync_attendances db0 batch1).2 [] batch2).1.map
              scanToAttendance) := by
    rw [sync_db_eq, syncProcess_staged]
  rw [hs2, countClient_append, countClient_staged, hcount1, cntA2]

/-- C10: every attendance row created by SyncBatch leaves the assignment link and the
scanned_by field NULL: the ingestion engine never looks up the assignment active at
scan time. -/
theorem sync_never_links_scans (db : List Attendance) (scans : List ScanItem) :
    ∃ newRows : List Attendance,
      (sync_attendances db scans).2 = db ++ newRows ∧
      ∀ a ∈ newRows, a.assignment_id = none ∧ a.scanned_by = none := by
  refine ⟨(syncProcess db [] scans).2.2, rfl, ?_⟩
  intro a ha
  rw [syncProcess_staged db scans []] at ha
  rcases List.mem_map.mp ha with ⟨s, _, hs⟩
  rw [← hs]
  exact ⟨rfl, rfl⟩

/-- C1 witness: the theorem applied to the empty store and two singleton batches
carrying the same identifier. -/
theorem sync_idempotent_across_batches_witness :
    countClient ([] : List Attendance) "u-1" = 0 ∧
    0 < uuidCountScans [wScan] "u-1" ∧
    "u-1" ∈ (sync_attendances [] [wScan]).1.accepted ∧
    "u-1" ∈ (sync_attendances (sync_attendances [] [wScan]).2 [wScan]).1.duplicate ∧
    countClient (sync_attendances (sync_attendances [] [wScan]).2 [wScan]).2 "u-1" = 1 :=
  ⟨rfl, by decide,
    (sync_idempotent_across_batches [] [wScan] "u-1" rfl (by decide)).1,
    ((sync_idempotent_across_batches [] [wScan] "u-1" rfl (by decide)).2.2 [wScan]
      (by decide)).1,
    ((sync_idempotent_across_batches [] [wScan] "u-1" rfl (by decide)).2.2 [wScan]
      (by decide)).2.2.2⟩

/-! ## Token assignment state machine: list helpers -/

theorem forall₂_self_of {α : Type} {R : α → α → Prop} :
    ∀ {l : List α}, (∀ x ∈ l, R x x) → List.Forall₂ R l l
  | [], _ => List.Forall₂.nil
  | x :: t, h =>
    List.Forall₂.cons (h x (by simp)) (forall₂_self_of fun y hy => h y (by simp [hy]))

theorem forall₂_map_self {α : Type} {R : α → α → Prop} {f : α → α} :
    ∀ {l : List α}, (∀ x ∈ l, R x (f x)) → List.Forall₂ R l (l.map f)
  | [], _ => List.Forall₂.nil
  | x :: t, h =>
    List.Forall₂.cons (h x (by simp)) (forall₂_map_self fun y hy => h y (by simp [hy]))

theorem forall₂_countP_le {α : Type} {R : α → α → Prop} (p : α → Bool)
    {l l' : List α} (h : List.Forall₂ R l l')
    (hR : ∀ a a', R a a' → p a' = true → p a = true) :
    l'.countP p ≤ l.countP p := by
  induction h with
  | nil => simp
  | @cons a b l₁ l₂ h₁ h₂ ih =>
    simp only [List.countP_cons]
    by_cases hpb : p b = true
    · rw [hpb, hR a b h₁ hpb]
      simp
      omega
    · have hb0 : (if p b = true then 1 else 0) = 0 := by simp [hpb]
      rw [hb0]
      omega

theorem forall₂_countP_zero {α : Type} {R : α → α → Prop} (p : α → Bool)
    {l l' : List α} (h : List.Forall₂ R l l')
    (hR : ∀ a a', R a a' → p a' = false) :
    l'.countP p = 0 := by
  induction h with
  | nil => simp
  | @cons a b l₁ l₂ h₁ h₂ ih =>
    simp [List.countP_cons, ih, hR a b h₁]

theorem forall₂_map_eq {α β : Type} {R : α → α → Prop} (f : α → β)
    {l l' : List α} (h : List.Forall₂ R l l')
    (hR : ∀ a a', R a a' → f a' = f a) :
    l'.map f = l.map f := by
  induction h with
  | nil => rfl
  | @cons a b l₁ l₂ h₁ h₂ ih =>
    simp only [List.map_cons, ih, hR a b h₁]

theorem two_mem_two_le_countP {α : Type} (p : α → Bool) :
    ∀ {l : List α} {x y : α}, x ∈ l → y ∈ l → x ≠ y → p x = true → p y = true →
      2 ≤ l.countP p := by
  intro l
  induction l with
  | nil => intro x y hx; intro hy; cases hx
  | cons c t ih =>
    intro x y hx hy hne hpx hpy
    rcases List.mem_cons.mp hx with hx | hx
    · rcases List.mem_cons.mp hy with hy | hy
      · exact absurd (hx.trans hy.symm) hne
      · have h1 : 0 < t.countP p := List.countP_pos_iff.mpr ⟨y, hy, hpy⟩
        have h2 : (c :: t).countP p = t.countP p + 1 := by
          rw [← hx]
          simp [List.countP_cons, hpx]
        omega
    · rcases List.mem_cons.mp hy with hy | hy
      · have h1 : 0 < t.countP p := List.countP_pos_iff.mpr ⟨x, hx, hpx⟩
        have h2 : (c :: t).countP p = t.countP p + 1 := by
          rw [← hy]
          simp [List.countP_cons, hpy]
        omega
      · have h1 := ih hx hy hne hpx hpy
        have h2 : t.countP p ≤ (c :: t).countP p := by
          simp only [List.countP_cons]
          omega
        omega

theorem unique_of_countP_le_one {α : Type} (p : α → Bool) {l : List α}
    (h : l.countP p ≤ 1) {x y : α} (hx : x ∈ l) (hy : y ∈ l)
    (hpx : p x = true) (hpy : p y = true) : x = y := by
  by_contra hne
  exact absurd h (by have := two_mem_two_le_countP p hx hy hne hpx hpy; omega)

/-! ## Token assignment state machine: releaseAssignment and token-stock lemmas -/

theorem matchesActiveToken_released (uid : String) (trip : Uuid) (a : Assignment)
    (n : Nat) : matchesActiveToken uid trip { a with released_at := some n } = false := by
  simp [matchesActiveToken]

theorem matchesActiveStudent_released (sid trip : Uuid) (a : Assignment)
    (n : Nat) : matchesActiveStudent sid trip { a with released_at := some n } = false := by
  simp [matchesActiveStudent]

theorem releaseAssignment_map_id (l : List Assignment) (i n : Nat) :
    (releaseAssignment l i n).map (fun a => a.id) = l.map (fun a => a.id) := by
  rw [releaseAssignment, List.map_map]
  apply List.map_congr_left
  intro a _
  rcases hid : (a.id == i) with _ | _ <;> simp [Function.comp, hid]

theorem releaseAssignment_eq_self (l : List Assignment) (i n : Nat)
    (h : ∀ x ∈ l, x.id ≠ i) : releaseAssignment l i n = l := by
  rw [releaseAssignment]
  have hpt : ∀ x ∈ l, (if x.id == i then { x with released_at := some n } else x) = x := by
    intro x hx
    rw [if_neg (by simp [h x hx])]
  rw [List.map_congr_left hpt, List.map_id']

theorem id_inj_of_nodup {l : List Assignment}
    (h : (l.map (fun a => a.id)).Nodup) {x y : Assignment}
    (hx : x ∈ l) (hy : y ∈ l) (hid : x.id = y.id) : x = y :=
  List.inj_on_of_nodup_map h hx hy hid

theorem countP_eq_zero_of_find?_none {p : Assignment → Bool} {l : List Assignment}
    (h : l.find? p = none) : l.countP p = 0 :=
  List.countP_eq_zero.mpr (by
    intro a ha hpa
    exact absurd hpa (by simpa using List.find?_eq_none.mp h a ha))

theorem find?_none_of_countP_eq_zero {p : Assignment → Bool} {l : List Assignment}
    (h : l.countP p = 0) : l.find? p = none :=
  List.find?_eq_none.mpr (by
    intro a ha hpa
    exact absurd hpa (by simpa using List.countP_eq_zero.mp h a ha))

theorem find?_isSome_of_countP_pos {p : Assignment → Bool} {l : List Assignment}
    (h : 0 < l.countP p) : (l.find? p).isSome = true := by
  rcases List.countP_pos_iff.mp h with ⟨a, ha, hpa⟩
  rcases hf : l.find? p with _ | b
  · exact absurd hpa (by simpa using List.find?_eq_none.mp hf a ha)
  · rfl

theorem countP_append_singleton (l : List Assignment) (x : Assignment)
    (p : Assignment → Bool) :
    (l ++ [x]).countP p = l.countP p + if p x then 1 else 0 := by
  rw [List.countP_append]
  simp [List.countP_cons]

/-- Releasing the row with primary key `a.id`, where `a` is a matching member of a
duplicate-free table, lowers the match count by exactly one. -/
theorem countP_releaseAssignment_kill {p : Assignment → Bool} {n : Nat} :
    ∀ {l : List Assignment} {a : Assignment},
      (l.map (fun x => x.id)).Nodup → a ∈ l → p a = true →
      (∀ x : Assignment, p { x with released_at := some n } = false) →
      (releaseAssignment l a.id n).countP p + 1 = l.countP p := by
  intro l
  induction l with
  | nil => intro a _ ha; cases ha
  | cons c t ih =>
    intro a hnd ha hpa hp
    have hnd' : (t.map (fun x => x.id)).Nodup := (List.nodup_cons.mp hnd).2
    have hcid : c.id ∉ t.map (fun x => x.id) := (List.nodup_cons.mp hnd).1
    rcases List.mem_cons.mp ha with ha | ha
    · subst ha
      have htail : releaseAssignment t a.id n = t := by
        apply releaseAssignment_eq_self
        intro x hx hxid
        exact hcid (by rw [← hxid]; exact List.mem_map_of_mem (fun y => y.id) hx)
      have hhead : releaseAssignment (a :: t) a.id n
          = { a with released_at := some n } :: releaseAssignment t a.id n := by
        simp [releaseAssignment]
      rw [hhead, htail]
      simp [List.countP_cons, hp, hpa]
    · have hne : ¬ (c.id == a.id) = true := by
        intro hb
        exact hcid (by
          rw [beq_iff_eq] at hb
          rw [hb]
          exact List.mem_map_of_mem (fun y => y.id) ha)
      have hhead : releaseAssignment (c :: t) a.id n
          = c :: releaseAssignment t a.id n := by
        simp only [releaseAssignment, List.map_cons, if_neg hne]
      rw [hhead]
      have := ih hnd' ha hpa hp
      simp only [List.countP_cons]
      omega

/-- Releasing a row never raises the count of an activity predicate. -/
theorem countP_releaseAssignment_le {p : Assignment → Bool} {n : Nat}
    (l : List Assignment) (i : Nat)
    (hp : ∀ x : Assignment, p { x with released_at := some n } = false) :
    (releaseAssignment l i n).countP p ≤ l.countP p := by
  rw [releaseAssignment, List.countP_map]
  apply List.countP_mono_left
  intro a _ h
  simp only [Function.comp] at h
  by_cases hid : (a.id == i) = true
  · rw [if_pos hid] at h
    rw [hp a] at h
    cases h
  · rwa [if_neg hid] at h

/-- `_update_token_status` on a stock without this uid is the identity. -/
theorem update_token_status_eq_self (tokens : List Token) (uid s : String) (n : Nat)
    (h : ∀ t ∈ tokens, t.token_uid ≠ uid) :
    update_token_status tokens uid s n = tokens := by
  induction tokens with
  | nil => rfl
  | cons c t ih =>
    rw [update_token_status, if_neg (by simp [h c (by simp)])]
    rw [ih fun x hx => h x (by simp [hx])]

/-- `_update_token_status` pointwise on a duplicate-free stock: the row carrying the
uid is updated, every other row is untouched. -/
theorem update_token_status_forall₂ (uid s : String) (n : Nat) :
    ∀ (tokens : List Token), (tokens.map (fun t => t.token_uid)).Nodup →
      List.Forall₂ (fun t t' =>
        if t.token_uid == uid
        then t' = { t with status := s, last_assigned_at := some n }
        else t' = t) tokens (update_token_status tokens uid s n) := by
  intro tokens
  induction tokens with
  | nil => intro; exact List.Forall₂.nil
  | cons c t ih =>
    intro hnd
    have hnd' : (t.map (fun x => x.token_uid)).Nodup := (List.nodup_cons.mp hnd).2
    have hcid : c.token_uid ∉ t.map (fun x => x.token_uid) := (List.nodup_cons.mp hnd).1
    by_cases hc : (c.token_uid == uid) = true
    · rw [update_token_status, if_pos hc]
      refine List.Forall₂.cons (by rw [if_pos hc]) (forall₂_self_of ?_)
      intro x hx
      rw [if_neg ?_]
      intro hb
      apply hcid
      rw [beq_iff_eq] at hb hc
      rw [hc, ← hb]
      exact List.mem_map_of_mem (fun y => y.token_uid) hx
    · rw [update_token_status, if_neg hc]
      exact List.Forall₂.cons (by rw [if_neg hc]) (ih hnd')

/-- `_update_token_status` with status ASSIGNED, pointwise without any uniqueness
assumption: each row is untouched or becomes an ASSIGNED row with the same uid and
kind. -/
theorem update_token_status_weak (uid : String) (n : Nat) :
    ∀ (tokens : List Token),
      List.Forall₂ (fun t t' => t' = t ∨
        (t'.token_uid = t.token_uid ∧ t'.token_type = t.token_type ∧
          t'.status = "ASSIGNED"))
        tokens (update_token_status tokens uid "ASSIGNED" n) := by
  intro tokens
  induction tokens with
  | nil => exact List.Forall₂.nil
  | cons c t ih =>
    by_cases hc : (c.token_uid == uid) = true
    · rw [update_token_status, if_pos hc]
      exact List.Forall₂.cons (Or.inr ⟨rfl, rfl, rfl⟩)
        (forall₂_self_of fun x _ => Or.inl rfl)
    · rw [update_token_status, if_neg hc]
      exact List.Forall₂.cons (Or.inl rfl) ih

/-! ## Token assignment state machine: the reassign release structure -/

/-- Under the exclusivity and primary-key invariants, `reassign_token` rewrites the
assignment table to: every previously-active row for this token or this student on
this trip released at `now`, every other row untouched, then one new active row
appended. -/
theorem reassign_releases (st : AssignState) (data : AssignmentReassign)
    (b : Option Uuid) (now : Nat) (hInv : ExclusivityInv st) (hIds : IdsOk st) :
    ∃ l2 : List Assignment,
      (reassign_token st data b now).1.assignments = l2 ++
        [{ id := st.next_id, token_uid := data.token_uid, student_id := data.student_id,
           trip_id := data.trip_id, assignment_type := data.assignment_type,
           assigned_at := now, assigned_by := b, released_at := none }] ∧
      List.Forall₂ (fun a a' =>
        if (matchesActiveToken data.token_uid data.trip_id a
            || matchesActiveStudent data.student_id data.trip_id a) = true
        then a' = { a with released_at := some now } else a' = a)
        st.assignments l2 := by
  have hTinv := hInv.1 data.token_uid data.trip_id
  have hSinv := hInv.2 data.student_id data.trip_id
  rw [activeTokenCount] at hTinv
  rw [activeStudentCount] at hSinv
  rcases hT : st.assignments.find? (matchesActiveToken data.token_uid data.trip_id)
    with _ | a
  · rcases hS : st.assignments.find? (matchesActiveStudent data.student_id data.trip_id)
      with _ | bb
    · -- neither an active token row nor an active student row exists
      refine ⟨st.assignments, by simp [reassign_token, hT, hS], forall₂_self_of ?_⟩
      intro x hx
      have h1 : ¬ matchesActiveToken data.token_uid data.trip_id x = true := by
        simpa using List.find?_eq_none.mp hT x hx
      have h2 : ¬ matchesActiveStudent data.student_id data.trip_id x = true := by
        simpa using List.find?_eq_none.mp hS x hx
      rw [if_neg (by simp [h1, h2])]
    · -- only the student has an active row
      have hbbmem := List.mem_of_find?_eq_some hS
      have hpbb := List.find?_some hS
      refine ⟨releaseAssignment st.assignments bb.id now,
        by simp [reassign_token, hT, hS], ?_⟩
      rw [releaseAssignment]
      apply forall₂_map_self
      intro x hx
      by_cases hid : (x.id == bb.id) = true
      · have hxbb : x = bb := id_inj_of_nodup hIds.2 hx hbbmem (beq_iff_eq.mp hid)
        subst hxbb
        rw [if_pos hid, if_pos (by simp [hpbb])]
      · have h1 : ¬ matchesActiveToken data.token_uid data.trip_id x = true := by
          simpa using List.find?_eq_none.mp hT x hx
        have h2 : ¬ matchesActiveStudent data.student_id data.trip_id x = true := by
          intro hps
          exact hid (by
            rw [unique_of_countP_le_one _ hSinv hx hbbmem hps hpbb]
            simp)
        rw [if_neg (by simp [h1, h2]), if_neg hid]
  · have hamem := List.mem_of_find?_eq_some hT
    have hpa := List.find?_some hT
    rcases hS : st.assignments.find? (matchesActiveStudent data.student_id data.trip_id)
      with _ | bb
    · -- only the token has an active row
      refine ⟨releaseAssignment st.assignments a.id now,
        by simp [reassign_token, hT, hS], ?_⟩
      rw [releaseAssignment]
      apply forall₂_map_self
      intro x hx
      by_cases hid : (x.id == a.id) = true
      · have hxa : x = a := id_inj_of_nodup hIds.2 hx hamem (beq_iff_eq.mp hid)
        subst hxa
        rw [if_pos hid, if_pos (by simp [hpa])]
      · have h1 : ¬ matchesActiveToken data.token_uid data.trip_id x = true := by
          intro hpt
          exact hid (by
            rw [unique_of_countP_le_one _ hTinv hx hamem hpt hpa]
            simp)
        have h2 : ¬ matchesActiveStudent data.student_id data.trip_id x = true := by
          simpa using List.find?_eq_none.mp hS x hx
        rw [if_neg (by simp [h1, h2]), if_neg hid]
    · -- both the token and the student have an active row
      have hbbmem := List.mem_of_find?_eq_some hS
      have hpbb := List.find?_some hS
      by_cases hba : (bb.id == a.id) = true
      · -- same row: `old_student is old_token`, released once
        have hbba : bb = a := id_inj_of_nodup hIds.2 hbbmem hamem (beq_iff_eq.mp hba)
        subst hbba
        refine ⟨releaseAssignment st.assignments bb.id now,
          by simp [reassign_token, hT, hS, hba], ?_⟩
        rw [releaseAssignment]
        apply forall₂_map_self
        intro x hx
        by_cases hid : (x.id == bb.id) = true
        · have hxa : x = bb := id_inj_of_nodup hIds.2 hx hamem (beq_iff_eq.mp hid)
          subst hxa
          rw [if_pos hid, if_pos (by simp [hpa])]
        · have h1 : ¬ matchesActiveToken data.token_uid data.trip_id x = true := by
            intro hpt
            exact hid (by
              rw [unique_of_countP_le_one _ hTinv hx hamem hpt hpa]
              simp)
          have h2 : ¬ matchesActiveStudent data.student_id data.trip_id x = true := by
            intro hps
            exact hid (by
              rw [unique_of_countP_le_one _ hSinv hx hbbmem hps hpbb]
              simp)
          rw [if_neg (by simp [h1, h2]), if_neg hid]
      · -- distinct rows: both released
        have hcomp : releaseAssignment (releaseAssignment st.assignments a.id now)
            bb.id now
            = st.assignments.map (fun x =>
                (fun y : Assignment =>
                  if y.id == bb.id then { y with released_at := some now } else y)
                ((fun y : Assignment =>
                  if y.id == a.id then { y with released_at := some now } else y) x)) := by
          rw [releaseAssignment, releaseAssignment, List.map_map]
          rfl
        refine ⟨releaseAssignment (releaseAssignment st.assignments a.id now) bb.id now,
          by simp [reassign_token, hT, hS, hba], ?_⟩
        rw [hcomp]
        apply forall₂_map_self
        intro x hx
        by_cases hidA : (x.id == a.id) = true
        · have hxa : x = a := id_inj_of_nodup hIds.2 hx hamem (beq_iff_eq.mp hidA)
          subst hxa
          rw [if_pos (by simp [hpa])]
          have hba' : (x.id == bb.id) = false := by
            rw [Bool.eq_false_iff]
            intro h
            exact hba (by rw [beq_iff_eq] at h ⊢; exact h.symm)
          simp [hba']
        · by_cases hidB : (x.id == bb.id) = true
          · have hxbb : x = bb := id_inj_of_nodup hIds.2 hx hbbmem (beq_iff_eq.mp hidB)
            subst hxbb
            rw [if_pos (by simp [hpbb])]
            simp [hidA]
          · have h1 : ¬ matchesActiveToken data.token_uid data.trip_id x = true := by
              intro hpt
              exact hidA (by
                rw [unique_of_countP_le_one _ hTinv hx hamem hpt hpa]
                simp)
            have h2 : ¬ matchesActiveStudent data.student_id data.trip_id x = true := by
              intro hps
              exact hidB (by
                rw [unique_of_countP_le_one _ hSinv hx hbbmem hps hpbb]
                simp)
            rw [if_neg (by simp [h1, h2])]
            simp [hidA, hidB]

/-! ## Token assignment state machine: assign_token shape lemmas -/

theorem assign_token_ok_of (st : AssignState) (data : AssignmentCreate)
    (b : Option Uuid) (now : Nat)
    (h1 : isParticipant st.trip_students data.trip_id data.student_id = true)
    (h2 : st.assignments.find? (matchesActiveToken data.token_uid data.trip_id) = none)
    (h3 : st.assignments.find? (matchesActiveStudent data.student_id data.trip_id) = none) :
    assign_token st data b now = Except.ok
      ({ st with
          assignments := st.assignments ++
            [{ id := st.next_id, token_uid := data.token_uid,
               student_id := data.student_id, trip_id := data.trip_id,
               assignment_type := data.assignment_type, assigned_at := now,
               assigned_by := b, released_at := none }],
          tokens := update_token_status st.tokens data.token_uid "ASSIGNED" now,
          next_id := st.next_id + 1 },
       { id := st.next_id, token_uid := data.token_uid, student_id := data.student_id,
         trip_id := data.trip_id, assignment_type := data.assignment_type,
         assigned_at := now, assigned_by := b, released_at := none }) := by
  rw [assign_token, if_neg (by simp [h1]), if_neg (by simp [h2]), if_neg (by simp [h3])]

theorem assign_token_err_notParticipant (st : AssignState) (data : AssignmentCreate)
    (b : Option Uuid) (now : Nat)
    (h1 : isParticipant st.trip_students data.trip_id data.student_id = false) :
    assign_token st data b now = Except.error AssignError.notParticipant := by
  rw [assign_token, if_pos (by simp [h1])]

theorem assign_token_err_token (st : AssignState) (data : AssignmentCreate)
    (b : Option Uuid) (now : Nat)
    (h1 : isParticipant st.trip_students data.trip_id data.student_id = true)
    (h2 : 0 < activeTokenCount st.assignments data.token_uid data.trip_id) :
    assign_token st data b now
      = Except.error (AssignError.tokenAlreadyAssigned data.token_uid) := by
  rw [activeTokenCount] at h2
  rw [assign_token, if_neg (by simp [h1]), if_pos (find?_isSome_of_countP_pos h2)]

theorem assign_token_err_student (st : AssignState) (data : AssignmentCreate)
    (b : Option Uuid) (now : Nat)
    (h1 : isParticipant st.trip_students data.trip_id data.student_id = true)
    (h2 : activeTokenCount st.assignments data.token_uid data.trip_id = 0)
    (h3 : 0 < activeStudentCount st.assignments data.student_id data.trip_id) :
    assign_token st data b now = Except.error AssignError.studentAlreadyAssigned := by
  rw [activeTokenCount] at h2
  rw [activeStudentCount] at h3
  rw [assign_token, if_neg (by simp [h1]),
    if_neg (by simp [find?_none_of_countP_eq_zero h2]),
    if_pos (find?_isSome_of_countP_pos h3)]

theorem assign_token_ok_shape (st : AssignState) (data : AssignmentCreate)
    (b : Option Uuid) (now : Nat) {st' : AssignState} {a : Assignment}
    (h : assign_token st data b now = Except.ok (st', a)) :
    st.assignments.find? (matchesActiveToken data.token_uid data.trip_id) = none ∧
    st.assignments.find? (matchesActiveStudent data.student_id data.trip_id) = none ∧
    a = { id := st.next_id, token_uid := data.token_uid, student_id := data.student_id,
          trip_id := data.trip_id, assignment_type := data.assignment_type,
          assigned_at := now, assigned_by := b, released_at := none } ∧
    st' = { st with
            assignments := st.assignments ++ [a],
            tokens := update_token_status st.tokens data.token_uid "ASSIGNED" now,
            next_id := st.next_id + 1 } := by
  rw [assign_token] at h
  split at h
  · cases h
  · split at h
    · cases h
    · split at h
      · cases h
      · rename_i hc1 hc2 hc3
        have h2 : st.assignments.find? (matchesActiveToken data.token_uid data.trip_id)
            = none := by
          rcases hf : st.assignments.find?
              (matchesActiveToken data.token_uid data.trip_id) with _ | y
          · rfl
          · exact absurd (by rw [hf]; rfl) hc2
        have h3 : st.assignments.find? (matchesActiveStudent data.student_id data.trip_id)
            = none := by
          rcases hf : st.assignments.find?
              (matchesActiveStudent data.student_id data.trip_id) with _ | y
          · rfl
          · exact absurd (by rw [hf]; rfl) hc3
        rw [Except.ok.injEq, Prod.mk.injEq] at h
        exact ⟨h2, h3, h.2.symm, by rw [← h.1, ← h.2]⟩

/-! ## Token assignment state machine: invariant preservation -/

theorem stateInv_assign (st : AssignState) (data : AssignmentCreate)
    (b : Option Uuid) (now : Nat) (h : StateInv st) :
    StateInv (apply_assign st data b now) := by
  obtain ⟨hInv, hIds⟩ := h
  rw [apply_assign]
  split
  · rename_i st' a heq
    obtain ⟨h2, h3, ha, hst'⟩ := assign_token_ok_shape st data b now heq
    subst hst'
    refine ⟨⟨?_, ?_⟩, ?_, ?_⟩
    · intro uid trip
      show (st.assignments ++ [a]).countP (matchesActiveToken uid trip) ≤ 1
      rw [countP_append_singleton]
      by_cases hm : matchesActiveToken uid trip a = true
      · have hud : data.token_uid = uid ∧ data.trip_id = trip := by
          rw [ha] at hm
          simpa [matchesActiveToken] using hm
        obtain ⟨hu, hd⟩ := hud
        subst hu
        subst hd
        rw [countP_eq_zero_of_find?_none h2, if_pos hm]
      · rw [if_neg hm]
        have := hInv.1 uid trip
        rw [activeTokenCount] at this
        omega
    · intro sid trip
      show (st.assignments ++ [a]).countP (matchesActiveStudent sid trip) ≤ 1
      rw [countP_append_singleton]
      by_cases hm : matchesActiveStudent sid trip a = true
      · have hud : data.student_id = sid ∧ data.trip_id = trip := by
          rw [ha] at hm
          simpa [matchesActiveStudent] using hm
        obtain ⟨hu, hd⟩ := hud
        subst hu
        subst hd
        rw [countP_eq_zero_of_find?_none h3, if_pos hm]
      · rw [if_neg hm]
        have := hInv.2 sid trip
        rw [activeStudentCount] at this
        omega
    · intro x hx
      show x.id < st.next_id + 1
      rcases List.mem_append.mp hx with hx | hx
      · have := hIds.1 x hx
        omega
      · have : x = a := by simpa using hx
        rw [this, ha]
        show st.next_id < st.next_id + 1
        omega
    · show ((st.assignments ++ [a]).map (fun x => x.id)).Nodup
      rw [List.map_append, ha]
      rw [List.nodup_append]
      refine ⟨hIds.2, by simp, ?_⟩
      intro i hi hmem
      have : i = st.next_id := by simpa using hmem
      subst this
      rcases List.mem_map.mp hi with ⟨y, hy, hyid⟩
      have := hIds.1 y hy
      omega
  · exact ⟨hInv, hIds⟩

theorem stateInv_reassign (st : AssignState) (data : AssignmentReassign)
    (b : Option Uuid) (now : Nat) (h : StateInv st) :
    StateInv (reassign_token st data b now).1 := by
  obtain ⟨hInv, hIds⟩ := h
  obtain ⟨l2, hEq, hF⟩ := reassign_releases st data b now hInv hIds
  have hids : l2.map (fun a => a.id) = st.assignments.map (fun a => a.id) :=
    forall₂_map_eq _ hF (by
      intro a a' hR
      by_cases hc : (matchesActiveToken data.token_uid data.trip_id a
          || matchesActiveStudent data.student_id data.trip_id a) = true
      · rw [if_pos hc] at hR
        rw [hR]
      · rw [if_neg hc] at hR
        rw [hR])
  have hnext : (reassign_token st data b now).1.next_id = st.next_id + 1 := rfl
  refine ⟨⟨?_, ?_⟩, ?_, ?_⟩
  · intro uid trip
    show activeTokenCount (reassign_token st data b now).1.assignments uid trip ≤ 1
    rw [activeTokenCount, hEq, countP_append_singleton]
    by_cases hm : matchesActiveToken uid trip
        { id := st.next_id, token_uid := data.token_uid, student_id := data.student_id,
          trip_id := data.trip_id, assignment_type := data.assignment_type,
          assigned_at := now, assigned_by := b, released_at := none } = true
    · have hud : data.token_uid = uid ∧ data.trip_id = trip := by
        simpa [matchesActiveToken] using hm
      obtain ⟨hu, hd⟩ := hud
      subst hu
      subst hd
      have hzero : l2.countP (matchesActiveToken data.token_uid data.trip_id) = 0 := by
        apply forall₂_countP_zero _ hF
        intro a a' hR
        by_cases hc : (matchesActiveToken data.token_uid data.trip_id a
            || matchesActiveStudent data.student_id data.trip_id a) = true
        · rw [if_pos hc] at hR
          rw [hR]
          exact matchesActiveToken_released _ _ _ _
        · rw [if_neg hc] at hR
          rw [hR]
          simp only [Bool.or_eq_true, not_or] at hc
          simpa using hc.1
      rw [hzero, if_pos hm]
    · rw [if_neg hm]
      have hle := forall₂_countP_le (matchesActiveToken uid trip) hF (by
        intro a a' hR hp
        by_cases hc : (matchesActiveToken data.token_uid data.trip_id a
            || matchesActiveStudent data.student_id data.trip_id a) = true
        · rw [if_pos hc] at hR
          rw [hR] at hp
          rw [matchesActiveToken_released] at hp
          cases hp
        · rw [if_neg hc] at hR
          rwa [hR] at hp)
      have := hInv.1 uid trip
      rw [activeTokenCount] at this
      omega
  · intro sid trip
    show activeStudentCount (reassign_token st data b now).1.assignments sid trip ≤ 1
    rw [activeStudentCount, hEq, countP_append_singleton]
    by_cases hm : matchesActiveStudent sid trip
        { id := st.next_id, token_uid := data.token_uid, student_id := data.student_id,
          trip_id := data.trip_id, assignment_type := data.assignment_type,
          assigned_at := now, assigned_by := b, released_at := none } = true
    · have hud : data.student_id = sid ∧ data.trip_id = trip := by
        simpa [matchesActiveStudent] using hm
      obtain ⟨hu, hd⟩ := hud
      subst hu
      subst hd
      have hzero : l2.countP (matchesActiveStudent data.student_id data.trip_id) = 0 := by
        apply forall₂_countP_zero _ hF
        intro a a' hR
        by_cases hc : (matchesActiveToken data.token_uid data.trip_id a
            || matchesActiveStudent data.student_id data.trip_id a) = true
        · rw [if_pos hc] at hR
          rw [hR]
          exact matchesActiveStudent_released _ _ _ _
        · rw [if_neg hc] at hR
          rw [hR]
          simp only [Bool.or_eq_true, not_or] at hc
          simpa using hc.2
      rw [hzero, if_pos hm]
    · rw [if_neg hm]
      have hle := forall₂_countP_le (matchesActiveStudent sid trip) hF (by
        intro a a' hR hp
        by_cases hc : (matchesActiveToken data.token_uid data.trip_id a
            || matchesActiveStudent data.student_id data.trip_id a) = true
        · rw [if_pos hc] at hR
          rw [hR] at hp
          rw [matchesActiveStudent_released] at hp
          cases hp
        · rw [if_neg hc] at hR
          rwa [hR] at hp)
      have := hInv.2 sid trip
      rw [activeStudentCount] at this
      omega
  · intro x hx
    rw [hEq] at hx
    rw [hnext]
    rcases List.mem_append.mp hx with hx | hx
    · have : x.id ∈ st.assignments.map (fun y => y.id) := by
        rw [← hids]
        exact List.mem_map_of_mem _ hx
      rcases List.mem_map.mp this with ⟨y, hy, hyid⟩
      have := hIds.1 y hy
      omega
    · have : x.id = st.next_id := by
        have hxa : x =
            { id := st.next_id, token_uid := data.token_uid,
              student_id := data.student_id, trip_id := data.trip_id,
              assignment_type := data.assignment_type, assigned_at := now,
              assigned_by := b, released_at := none } := by simpa using hx
        rw [hxa]
      omega
  · show ((reassign_token st data b now).1.assignments.map (fun a => a.id)).Nodup
    rw [hEq, List.map_append, hids]
    rw [List.nodup_append]
    refine ⟨hIds.2, by simp, ?_⟩
    intro i hi hmem
    have : i = st.next_id := by simpa using hmem
    subst this
    rcases List.mem_map.mp hi with ⟨y, hy, hyid⟩
    have := hIds.1 y hy
    omega

theorem stateInv_release (st : AssignState) (trip : Uuid) (now : Nat)
    (h : StateInv st) : StateInv (release_trip_tokens st trip now).1 := by
  obtain ⟨hInv, hIds⟩ := h
  rw [release_trip_tokens]
  split
  · exact ⟨hInv, hIds⟩
  · have hmono : ∀ p : Assignment → Bool,
        (∀ x : Assignment, p { x with released_at := some now } = false) →
        (st.assignments.map (fun a =>
          if a.trip_id == trip && a.released_at.isNone
          then { a with released_at := some now } else a)).countP p
          ≤ st.assignments.countP p := by
      intro p hp
      rw [List.countP_map]
      apply List.countP_mono_left
      intro a _ hq
      simp only [Function.comp] at hq
      by_cases hc : (a.trip_id == trip && a.released_at.isNone) = true
      · rw [if_pos hc, hp a] at hq
        cases hq
      · rwa [if_neg hc] at hq
    have hidmap : (st.assignments.map (fun a =>
        if a.trip_id == trip && a.released_at.isNone
        then { a with released_at := some now } else a)).map (fun a => a.id)
        = st.assignments.map (fun a => a.id) := by
      rw [List.map_map]
      apply List.map_congr_left
      intro a _
      by_cases hc : (a.trip_id == trip && a.released_at.isNone) = true <;>
        simp [Function.comp, hc]
    refine ⟨⟨?_, ?_⟩, ?_, ?_⟩
    · intro uid trip'
      have := hInv.1 uid trip'
      rw [activeTokenCount] at this ⊢
      have := hmono (matchesActiveToken uid trip') (fun y => matchesActiveToken_released uid trip' y now)
      simp only []
      omega
    · intro sid trip'
      have := hInv.2 sid trip'
      rw [activeStudentCount] at this ⊢
      have := hmono (matchesActiveStudent sid trip') (fun y => matchesActiveStudent_released sid trip' y now)
      simp only []
      omega
    · intro x hx
      simp only [] at hx
      rcases List.mem_map.mp hx with ⟨y, hy, hyx⟩
      have hid : x.id = y.id := by
        rw [← hyx]
        by_cases hc : (y.trip_id == trip && y.released_at.isNone) = true <;> simp [hc]
      have := hIds.1 y hy
      show x.id < st.next_id
      omega
    · show ((st.assignments.map (fun a =>
          if a.trip_id == trip && a.released_at.isNone
          then { a with released_at := some now } else a)).map (fun a => a.id)).Nodup
      rw [hidmap]
      exact hIds.2

theorem stateInv_applyOp (st : AssignState) (op : EngineOp) (h : StateInv st) :
    StateInv (applyOp st op) := by
  cases op with
  | assign data b now => exact stateInv_assign st data b now h
  | reassign data b now => exact stateInv_reassign st data b now h
  | releaseAll trip now => exact stateInv_release st trip now h

theorem stateInv_init (ts : List TripStudent) (tokens : List Token) :
    StateInv (initState ts tokens) := by
  refine ⟨⟨?_, ?_⟩, ?_, ?_⟩ <;> simp [initState, activeTokenCount, activeStudentCount]

theorem stateInv_runOps (st : AssignState) (ops : List EngineOp) (h : StateInv st) :
    StateInv (runOps st ops) := by
  induction ops generalizing st with
  | nil => exact h
  | cons op rest ih => exact ih (applyOp st op) (stateInv_applyOp st op h)

theorem countP_singleton_le_one {α : Type} (p : α → Bool) (x : α) :
    [x].countP p ≤ 1 := by
  rcases h : p x with _ | _ <;> simp [List.countP_cons, h]

/-! ## Token assignment state machine: claims C2, C3, C4, C6, C7, C8, C9 -/

/-- C2: the two exclusivity invariants — per trip at most one active row per token
and at most one active row per student — hold in the freshly initialised store and
in every store reachable from it by a serial sequence of Assign, Reassign and
ReleaseAllForTrip operations. -/
theorem exclusivity_invariants_hold (ts : List TripStudent) (tokens : List Token)
    (ops : List EngineOp) :
    ExclusivityInv (initState ts tokens) ∧
    ExclusivityInv (runOps (initState ts tokens) ops) :=
  ⟨(stateInv_init ts tokens).1, (stateInv_runOps _ ops (stateInv_init ts tokens)).1⟩

/-- C3: a successful Reassign releases the previously-active assignment of the token
on the trip and the previously-active assignment of the student (when distinct),
creates exactly one new active assignment for (token, student, trip), does not
consult the trip roster (the theorem carries no membership hypothesis and its
witness reassigns to a non-enrolled student), and a failed commit leaves the prior
state completely unchanged. -/
theorem reassign_postcondition (st : AssignState) (data : AssignmentReassign)
    (b : Option Uuid) (now : Nat) (hInv : ExclusivityInv st) (hIds : IdsOk st) :
    ReassignPost st data b now := by
  obtain ⟨l2, hEq, hF⟩ := reassign_releases st data b now hInv hIds
  have hzeroT : l2.countP (matchesActiveToken data.token_uid data.trip_id) = 0 := by
    apply forall₂_countP_zero _ hF
    intro a a' hR
    by_cases hc : (matchesActiveToken data.token_uid data.trip_id a
        || matchesActiveStudent data.student_id data.trip_id a) = true
    · rw [if_pos hc] at hR
      rw [hR]
      exact matchesActiveToken_released _ _ _ _
    · rw [if_neg hc] at hR
      rw [hR]
      simp only [Bool.or_eq_true, not_or] at hc
      simpa using hc.1
  have hzeroS : l2.countP (matchesActiveStudent data.student_id data.trip_id) = 0 := by
    apply forall₂_countP_zero _ hF
    intro a a' hR
    by_cases hc : (matchesActiveToken data.token_uid data.trip_id a
        || matchesActiveStudent data.student_id data.trip_id a) = true
    · rw [if_pos hc] at hR
      rw [hR]
      exact matchesActiveStudent_released _ _ _ _
    · rw [if_neg hc] at hR
      rw [hR]
      simp only [Bool.or_eq_true, not_or] at hc
      simpa using hc.2
  refine ⟨rfl, ⟨l2, by rw [hEq]; rfl, hF⟩, ?_, ?_, rfl, rfl⟩
  · rw [activeTokenCount, hEq, countP_append_singleton, hzeroT,
      if_pos (by simp [matchesActiveToken])]
  · rw [activeStudentCount, hEq, countP_append_singleton, hzeroS,
      if_pos (by simp [matchesActiveStudent])]

/-- C3 witness: the theorem applied to a store holding one active assignment of
ST-001 to student stu-9 on trip-1, with an empty roster — the reassign succeeds
although stu-9 is not enrolled. -/
theorem reassign_postcondition_witness :
    ExclusivityInv stW2 ∧ IdsOk stW2 ∧ ReassignPost stW2 dataW2 none 5 :=
  ⟨⟨fun uid trip => countP_singleton_le_one _ _,
    fun sid trip => countP_singleton_le_one _ _⟩,
   ⟨by decide, by decide⟩,
   reassign_postcondition stW2 dataW2 none 5
     ⟨fun uid trip => countP_singleton_le_one _ _,
      fun sid trip => countP_singleton_le_one _ _⟩
     ⟨by decide, by decide⟩⟩

/-- C4: assign_token evaluates its three preconditions in order — participant
membership, no active token assignment on the trip, no active student assignment on
the trip — raising the corresponding typed error for the first violated one (the
token conflict names the token uid), and any precondition failure leaves the
persisted state completely unchanged. -/
theorem assign_precondition_order (st : AssignState) (data : AssignmentCreate)
    (b : Option Uuid) (now : Nat) :
    (isParticipant st.trip_students data.trip_id data.student_id = false →
      assign_token st data b now = Except.error AssignError.notParticipant) ∧
    (isParticipant st.trip_students data.trip_id data.student_id = true →
      0 < activeTokenCount st.assignments data.token_uid data.trip_id →
      assign_token st data b now
        = Except.error (AssignError.tokenAlreadyAssigned data.token_uid)) ∧
    (isParticipant st.trip_students data.trip_id data.student_id = true →
      activeTokenCount st.assignments data.token_uid data.trip_id = 0 →
      0 < activeStudentCount st.assignments data.student_id data.trip_id →
      assign_token st data b now = Except.error AssignError.studentAlreadyAssigned) ∧
    (∀ e : AssignError, assign_token st data b now = Except.error e →
      apply_assign st data b now = st) :=
  ⟨assign_token_err_notParticipant st data b now,
   assign_token_err_token st data b now,
   assign_token_err_student st data b now,
   fun e he => by rw [apply_assign, he]⟩

/-- C4 witness: the theorem applied to a store with an empty roster — the first
check fires with NotParticipant and the state is unchanged. -/
theorem assign_precondition_order_witness :
    isParticipant stW2.trip_students dataW.trip_id dataW.student_id = false ∧
    assign_token stW2 dataW none 0 = Except.error AssignError.notParticipant ∧
    apply_assign stW2 dataW none 0 = stW2 :=
  ⟨rfl,
   (assign_precondition_order stW2 dataW none 0).1 rfl,
   (assign_precondition_order stW2 dataW none 0).2.2.2 AssignError.notParticipant
     ((assign_precondition_order stW2 dataW none 0).1 rfl)⟩

/-- C6 (divergence evidence): when every pre-check passes and the storage layer
reports a uniqueness-constraint violation at commit time, the assign endpoint
answers with the generic 500, not with a typed 409 conflict — the service and the
router translate only the pre-check ValueError, never the commit-time storage
error. -/
theorem assign_commit_violation_not_translated :
    assign_token_endpoint stW dataW 0 CommitOutcome.uniqueViolation
      = HttpResult.internalError500 ∧
    ∀ e : AssignError,
      assign_token_endpoint stW dataW 0 CommitOutcome.uniqueViolation
        ≠ HttpResult.conflict409 e := by
  constructor
  · rfl
  · intro e h
    rw [show assign_token_endpoint stW dataW 0 CommitOutcome.uniqueViolation
        = HttpResult.internalError500 from rfl] at h
    exact HttpResult.noConfusion h

/-- C7: when all three preconditions hold, assign_token returns the created
assignment, appends exactly one new active row, bumps the autoincrement counter,
leaves the roster untouched, transitions the registered token carrying the uid to
ASSIGNED with its last-assignment time stamped, and leaves the stock untouched when
no registered token carries the uid. -/
theorem assign_success_postcondition (st : AssignState) (data : AssignmentCreate)
    (b : Option Uuid) (now : Nat)
    (h1 : isParticipant st.trip_students data.trip_id data.student_id = true)
    (h2 : activeTokenCount st.assignments data.token_uid data.trip_id = 0)
    (h3 : activeStudentCount st.assignments data.student_id data.trip_id = 0)
    (h4 : (st.tokens.map (fun t => t.token_uid)).Nodup) :
    AssignPost st data b now := by
  rw [activeTokenCount] at h2
  rw [activeStudentCount] at h3
  have hok := assign_token_ok_of st data b now h1
    (find?_none_of_countP_eq_zero h2) (find?_none_of_countP_eq_zero h3)
  refine ⟨_, _, hok, rfl, rfl, rfl, rfl, ?_, ?_⟩
  · exact update_token_status_forall₂ data.token_uid "ASSIGNED" now st.tokens h4
  · intro hnone
    exact update_token_status_eq_self st.tokens data.token_uid "ASSIGNED" now hnone

/-- C7 witness: the theorem applied to a store where stu-1 is enrolled on trip-1,
ST-001 is a registered AVAILABLE token and nothing is assigned yet. -/
theorem assign_success_postcondition_witness :
    isParticipant stW.trip_students dataW.trip_id dataW.student_id = true ∧
    activeTokenCount stW.assignments dataW.token_uid dataW.trip_id = 0 ∧
    activeStudentCount stW.assignments dataW.student_id dataW.trip_id = 0 ∧
    (stW.tokens.map (fun t => t.token_uid)).Nodup ∧
    AssignPost stW dataW none 7 :=
  ⟨by decide, rfl, rfl, by decide,
   assign_success_postcondition stW dataW none 7 (by decide) rfl rfl (by decide)⟩

/-- C8: ReleaseAllForTrip stamps the release timestamp on every active assignment of
the trip and only those, leaves the token stock, roster and counter untouched,
returns the number of rows it released, and is idempotent: afterwards no active
assignment remains for the trip and an immediate second call releases nothing and
returns 0. -/
theorem release_all_for_trip (st : AssignState) (trip : Uuid) (now : Nat) :
    (release_trip_tokens st trip now).2 = activeTripCount st.assignments trip ∧
    (release_trip_tokens st trip now).1.tokens = st.tokens ∧
    (release_trip_tokens st trip now).1.trip_students = st.trip_students ∧
    (release_trip_tokens st trip now).1.next_id = st.next_id ∧
    List.Forall₂ (fun a a' =>
      if (a.trip_id == trip && a.released_at.isNone) = true
      then a' = { a with released_at := some now } else a' = a)
      st.assignments (release_trip_tokens st trip now).1.assignments ∧
    activeTripCount (release_trip_tokens st trip now).1.assignments trip = 0 ∧
    release_trip_tokens (release_trip_tokens st trip now).1 trip now
      = ((release_trip_tokens st trip now).1, 0) := by
  by_cases h0 : activeTripCount st.assignments trip = 0
  · have hfl : (st.assignments.filter
        (fun a => a.trip_id == trip && a.released_at.isNone)).length = 0 := by
      rw [activeTripCount, List.countP_eq_length_filter] at h0
      exact h0
    have hbr : release_trip_tokens st trip now = (st, 0) := by
      rw [release_trip_tokens, if_pos (by simp [hfl])]
    rw [hbr]
    refine ⟨h0.symm, rfl, rfl, rfl, forall₂_self_of ?_, h0, hbr⟩
    intro x hx
    rw [activeTripCount] at h0
    rw [if_neg (by simpa using List.countP_eq_zero.mp h0 x hx)]
  · have hfl : ¬ ((st.assignments.filter
        (fun a => a.trip_id == trip && a.released_at.isNone)).length == 0) = true := by
      rw [activeTripCount, List.countP_eq_length_filter] at h0
      simpa using h0
    have hbr : release_trip_tokens st trip now
        = ({ st with assignments :=
              st.assignments.map (fun a =>
                if a.trip_id == trip && a.released_at.isNone
                then { a with released_at := some now } else a) },
           (st.assignments.filter
              (fun a => a.trip_id == trip && a.released_at.isNone)).length) := by
      rw [release_trip_tokens, if_neg hfl]
    have hpostzero : activeTripCount
        (st.assignments.map (fun a =>
          if a.trip_id == trip && a.released_at.isNone
          then { a with released_at := some now } else a)) trip = 0 := by
      rw [activeTripCount, List.countP_map]
      apply List.countP_eq_zero.mpr
      intro x _
      simp only [Function.comp]
      by_cases hc : (x.trip_id == trip && x.released_at.isNone) = true
      · rw [if_pos hc]
        simp
      · rw [if_neg hc]
        simpa using hc
    rw [hbr]
    refine ⟨(List.countP_eq_length_filter _ _).symm, rfl, rfl, rfl,
      forall₂_map_self ?_, hpostzero, ?_⟩
    · intro x _
      by_cases hc : (x.trip_id == trip && x.released_at.isNone) = true
      · rw [if_pos hc, if_pos hc]
      · rw [if_neg hc, if_neg hc]
    · have hfl2 : ((st.assignments.map (fun a =>
          if a.trip_id == trip && a.released_at.isNone
          then { a with released_at := some now } else a)).filter
            (fun a => a.trip_id == trip && a.released_at.isNone)).length = 0 := by
        rw [← List.countP_eq_length_filter]
        rw [activeTripCount] at hpostzero
        exact hpostzero
      rw [release_trip_tokens, if_pos (by rw [hfl2]; rfl)]

/-- C9: releasing assignments never touches the token stock — ReleaseAllForTrip
leaves every Token row identical — and the engine operations only ever write status
ASSIGNED to a token (preserving its uid and kind), so a token that is ASSIGNED stays
ASSIGNED; no operation sets a token back to AVAILABLE. -/
theorem token_status_never_reverted (st : AssignState) (trip : Uuid) (now : Nat)
    (op : EngineOp) :
    (release_trip_tokens st trip now).1.tokens = st.tokens ∧
    List.Forall₂ (fun t t' : Token => t' = t ∨
        (t'.token_uid = t.token_uid ∧ t'.token_type = t.token_type ∧
          t'.status = "ASSIGNED"))
      st.tokens (applyOp st op).tokens ∧
    List.Forall₂ (fun t t' : Token => t.status = "ASSIGNED" → t'.status = "ASSIGNED")
      st.tokens (applyOp st op).tokens := by
  have hrel : ∀ trip' now', (release_trip_tokens st trip' now').1.tokens = st.tokens := by
    intro trip' now'
    rw [release_trip_tokens]
    split
    · rfl
    · rfl
  have hmain : List.Forall₂ (fun t t' : Token => t' = t ∨
      (t'.token_uid = t.token_uid ∧ t'.token_type = t.token_type ∧
        t'.status = "ASSIGNED"))
      st.tokens (applyOp st op).tokens := by
    cases op with
    | assign data b now' =>
      show List.Forall₂ _ st.tokens (apply_assign st data b now').tokens
      rw [apply_assign]
      split
      · rename_i st' a heq
        obtain ⟨_, _, _, hst'⟩ := assign_token_ok_shape st data b now' heq
        rw [hst']
        exact update_token_status_weak data.token_uid now' st.tokens
      · exact forall₂_self_of fun x _ => Or.inl rfl
    | reassign data b now' =>
      exact update_token_status_weak data.token_uid now' st.tokens
    | releaseAll trip' now' =>
      show List.Forall₂ _ st.tokens (release_trip_tokens st trip' now').1.tokens
      rw [hrel trip' now']
      exact forall₂_self_of fun x _ => Or.inl rfl
  refine ⟨hrel trip now, hmain, ?_⟩
  apply hmain.imp
  intro t t' h hst
  rcases h with h | h
  · rw [h]
    exact hst
  · exact h.2.2

end SchoolTrack
